import Mathlib

/-!
Verification of the test-run generation core of Tapper-temare
(`src/generator.py`, class `TestRunGenerator`), shallowly embedded in Lean.

The source is Python 2: integer `/` is floor division, `random.randrange`
and `random.randint` draw from explicit integer ranges.  Randomness is
modelled by an explicit `seed : Nat` argument choosing one of the possible
values, so that every theorem quantifies over all draws the code can make.
-/

namespace Temare

/-- Python `random.randrange(start, stop, step)` for a positive step,
modelled with a seed selecting among the `(stop - start + step - 1) / step`
possible values `start, start + step, ...` strictly below `stop`. -/
def randrange (start stop step : Int) (seed : Nat) : Int :=
  start + step * ((seed : Int) % ((stop - start + step - 1) / step))

/-- Python `random.randint(a, b)`: an integer in `[a, b]`, seed-indexed. -/
def randint (a b : Int) (seed : Nat) : Int :=
  a + (seed : Int) % (b - a + 1)

/-- Result of `TestRunGenerator.get_test_config` (generator.py 327-351). -/
structure GuestConfig where
  cores : Int
  memory : Int
  shadowmem : Int
  hap : Int
  deriving Repr, DecidableEq

/-- The `cores` assignment of `get_test_config` (generator.py 332-335):
1 when only one core slot remains or the guest is not SMP-capable,
otherwise `random.randint(2, cores)`. -/
def config_cores (cores : Int) (smp : Nat) (seedC : Nat) : Int :=
  if cores = 1 ∨ smp = 0 then 1 else randint 2 cores seedC

/-- The `memory` assignment of `get_test_config` (generator.py 337-344):
three `random.randrange` draws at 256 MB granularity, selected by the
remaining budget and the candidate's bigmem flag. -/
def config_memory (memory : Int) (bigmem : Nat) (seedM : Nat) : Int :=
  if 4096 < memory ∧ bigmem = 1 then randrange 4096 (memory + 256) 256 seedM
  else if 4096 < memory then randrange 1024 (4096 + 256) 256 seedM
  else randrange 1024 (memory + 256) 256 seedM

/-- Embeds `TestRunGenerator.get_test_config` (generator.py 327-351).
`memory`/`cores` are `self.resources` at call time, `bitness` is
`self.resources['bitness']`, `smp`/`bigmem` are the candidate's flags.
`shadowmem = int(round(memory * 10 / 1024))` is Python 2 floor division
(`round` then acts on an exact integer and changes nothing). -/
def get_test_config (memory cores bitness : Int) (smp bigmem : Nat)
    (seedC seedM : Nat) : GuestConfig :=
  let m : Int := config_memory memory bigmem seedM
  { cores := config_cores cores smp seedC
    memory := m
    shadowmem := m * 10 / 1024
    hap := if 3840 < m ∧ bitness = 0 then 0 else 1 }

theorem randrange256_spec (start stop : Int) (seed : Nat) (h : start < stop) :
    start ≤ randrange start stop 256 seed ∧
      randrange start stop 256 seed < stop ∧
      randrange start stop 256 seed % 256 = start % 256 := by
  unfold randrange
  have hn : (stop - start + 256 - 1) / 256 = (stop - start + 255) / 256 := by
    omega
  rw [hn]
  set n : Int := (stop - start + 255) / 256 with hdefn
  have hn1 : 1 ≤ n := by omega
  have h0 : (0 : Int) ≤ (seed : Int) % n := Int.emod_nonneg _ (by omega)
  have h1 : (seed : Int) % n < n := Int.emod_lt_of_pos _ (by omega)
  set r : Int := (seed : Int) % n with hdefr
  constructor
  · nlinarith
  constructor
  · nlinarith [hdefn, Int.ediv_add_emod (stop - start + 255) 256,
      Int.emod_nonneg (stop - start + 255) (show (256:Int) ≠ 0 by norm_num),
      Int.emod_lt_of_pos (stop - start + 255) (show (0:Int) < 256 by norm_num)]
  · omega

theorem randint_spec (a b : Int) (seed : Nat) (h : a ≤ b) :
    a ≤ randint a b seed ∧ randint a b seed ≤ b := by
  unfold randint
  have h0 : (0 : Int) ≤ (seed : Int) % (b - a + 1) := Int.emod_nonneg _ (by omega)
  have h1 : (seed : Int) % (b - a + 1) < b - a + 1 := Int.emod_lt_of_pos _ (by omega)
  omega

/-- The memory drawn by `config_memory`: a multiple of 256, at least 1024,
less than `memory + 256`, and at most `memory` whenever the remaining budget
is itself a multiple of 256. -/
theorem config_memory_spec (memory : Int) (bigmem : Nat) (seedM : Nat)
    (hm : 1024 ≤ memory) :
    1024 ≤ config_memory memory bigmem seedM ∧
      config_memory memory bigmem seedM < memory + 256 ∧
      config_memory memory bigmem seedM % 256 = 0 ∧
      (memory % 256 = 0 → config_memory memory bigmem seedM ≤ memory) := by
  unfold config_memory
  split
  · rename_i hbig
    have := randrange256_spec 4096 (memory + 256) seedM (by omega)
    omega
  · split
    · rename_i hb1 hb2
      have := randrange256_spec 1024 (4096 + 256) seedM (by omega)
      omega
    · rename_i hb1 hb2
      have := randrange256_spec 1024 (memory + 256) seedM (by omega)
      omega

/-- The core count drawn by `config_cores`: at least 1 and within the
remaining core budget. -/
theorem config_cores_spec (cores : Int) (smp : Nat) (seedC : Nat)
    (hc : 0 < cores) :
    1 ≤ config_cores cores smp seedC ∧ config_cores cores smp seedC ≤ cores := by
  unfold config_cores
  split
  · omega
  · rename_i hne
    have h2 : 2 ≤ cores := by omega
    have := randint_spec 2 cores seedC h2
    omega

@[simp] theorem get_test_config_memory (memory cores bitness : Int)
    (smp bigmem : Nat) (seedC seedM : Nat) :
    (get_test_config memory cores bitness smp bigmem seedC seedM).memory =
      config_memory memory bigmem seedM := rfl

@[simp] theorem get_test_config_cores (memory cores bitness : Int)
    (smp bigmem : Nat) (seedC seedM : Nat) :
    (get_test_config memory cores bitness smp bigmem seedC seedM).cores =
      config_cores cores smp seedC := rfl

@[simp] theorem get_test_config_shadowmem (memory cores bitness : Int)
    (smp bigmem : Nat) (seedC seedM : Nat) :
    (get_test_config memory cores bitness smp bigmem seedC seedM).shadowmem =
      config_memory memory bigmem seedM * 10 / 1024 := rfl

@[simp] theorem get_test_config_hap (memory cores bitness : Int)
    (smp bigmem : Nat) (seedC seedM : Nat) :
    (get_test_config memory cores bitness smp bigmem seedC seedM).hap =
      (if 3840 < config_memory memory bigmem seedM ∧ bitness = 0 then 0 else 1) := rfl

/-- One eligible (test, image) candidate, i.e. one row of the `get_test`
query (generator.py 294-306) after the column-name zip of lines 322-325. -/
structure Candidate where
  scheduleId : Nat
  image : String
  format : String
  testName : String
  testCommand : String
  bigmem : Nat
  smp : Nat
  bitness : Nat
  deriving Repr, DecidableEq

/-- One accepted guest configuration: the candidate dict after
`test.update(self.get_test_config(test))` and the bookkeeping of
generator.py 377-380 (network identity fields other than `vnc`/`runid`
are pure functions of `vnc` and the host address and are not modelled). -/
structure RunItem where
  scheduleId : Nat
  image : String
  bigmem : Nat
  smp : Nat
  cores : Int
  memory : Int
  shadowmem : Int
  hap : Int
  vnc : Nat
  runid : Nat
  deriving Repr, DecidableEq

/-- Embeds the allocation loop of `TestRunGenerator.gen_tests`
(generator.py 367-386).  `pick k` is the outcome of the call to
`self.get_test()` made when `k` candidates have been accepted so far
(the store evolution and its randomness folded into an oracle), and
`sc`/`sm` supply the random draws of `get_test_config`.  `acc` is
`self.tests`, `[]` at the real entry point.  The `checks.chk_*` calls of
lines 381-384 re-validate strings that the store only accepts validated
and are modelled as the identity. -/
def gen_tests (bitness : Int) (pick : Nat → Option Candidate) (sc sm : Nat → Nat)
    (memory cores : Int) (acc : List RunItem) : Except String (List RunItem) :=
  if h : 1024 ≤ memory ∧ 0 < cores then
    match pick acc.length with
    | none => if acc.length = 0 then .error "Nothing to do." else .ok acc
    | some t =>
      let cfg := get_test_config memory cores bitness t.smp t.bigmem
        (sc acc.length) (sm acc.length)
      gen_tests bitness pick sc sm (memory - cfg.memory) (cores - cfg.cores)
        (acc ++ [{ scheduleId := t.scheduleId, image := t.image, bigmem := t.bigmem,
                   smp := t.smp, cores := cfg.cores, memory := cfg.memory,
                   shadowmem := cfg.shadowmem, hap := cfg.hap,
                   vnc := acc.length, runid := acc.length + 1 }])
  else .ok acc
termination_by memory.toNat
decreasing_by
  have hspec := config_memory_spec memory t.bigmem (sm acc.length) h.1
  simp only [get_test_config_memory]
  omega

/-- Sum of the assigned memory sizes of a run. -/
def memSum (l : List RunItem) : Int := (l.map (·.memory)).sum

/-- Sum of the assigned core counts of a run. -/
def coreSum (l : List RunItem) : Int := (l.map (·.cores)).sum

/-- Rounding of `x` up to the next multiple of 256. -/
def roundUp256 (x : Int) : Int := 256 * ((x + 255) / 256)

@[simp] theorem memSum_nil : memSum [] = 0 := rfl

@[simp] theorem coreSum_nil : coreSum [] = 0 := rfl

@[simp] theorem memSum_append (l₁ l₂ : List RunItem) :
    memSum (l₁ ++ l₂) = memSum l₁ + memSum l₂ := by
  simp [memSum]

@[simp] theorem coreSum_append (l₁ l₂ : List RunItem) :
    coreSum (l₁ ++ l₂) = coreSum l₁ + coreSum l₂ := by
  simp [coreSum]

@[simp] theorem memSum_singleton (x : RunItem) : memSum [x] = x.memory := by
  simp [memSum]

@[simp] theorem coreSum_singleton (x : RunItem) : coreSum [x] = x.cores := by
  simp [coreSum]

/-- Loop invariant of `gen_tests`: the accepted memory grows by at most the
remaining budget rounded up to a 256 MB multiple, and the accepted cores by
at most the remaining core budget. -/
theorem gen_tests_sums (bitness : Int) (pick : Nat → Option Candidate)
    (sc sm : Nat → Nat) (memory cores : Int) (acc : List RunItem) :
    -255 ≤ memory → 0 ≤ cores → ∀ l,
      gen_tests bitness pick sc sm memory cores acc = .ok l →
      memSum l ≤ memSum acc + roundUp256 memory ∧
        coreSum l ≤ coreSum acc + cores := by
  induction memory, cores, acc using gen_tests.induct bitness pick sc sm with
  | case1 memory cores acc h hpick hlen =>
    intro hm hc l hok
    rw [gen_tests, dif_pos h, hpick, if_pos hlen] at hok
    exact absurd hok (by simp)
  | case2 memory cores acc h hpick hlen =>
    intro hm hc l hok
    rw [gen_tests, dif_pos h, hpick, if_neg hlen] at hok
    cases hok
    unfold roundUp256
    omega
  | case3 memory cores acc h t hpick cfg ih =>
    intro hm hc l hok
    rw [gen_tests, dif_pos h, hpick] at hok
    have hmm := config_memory_spec memory t.bigmem (sm acc.length) h.1
    have hcc := config_cores_spec cores t.smp (sc acc.length) h.2
    simp only [cfg, get_test_config_memory, get_test_config_cores] at ih hok
    have := ih (by omega) (by omega) l hok
    simp only [memSum_append, coreSum_append, memSum_singleton,
      coreSum_singleton] at this
    unfold roundUp256 at *
    omega
  | case4 memory cores acc h =>
    intro hm hc l hok
    rw [gen_tests, dif_neg h] at hok
    cases hok
    unfold roundUp256
    omega

/-- Once at least one candidate has been accepted, the loop can no longer
raise: `raise ValueError('Nothing to do.')` is guarded by
`len(self.tests) == 0` (generator.py 373-376). -/
theorem gen_tests_ok_of_ne_nil (bitness : Int) (pick : Nat → Option Candidate)
    (sc sm : Nat → Nat) (memory cores : Int) (acc : List RunItem) :
    acc ≠ [] → ∀ e, gen_tests bitness pick sc sm memory cores acc ≠ .error e := by
  induction memory, cores, acc using gen_tests.induct bitness pick sc sm with
  | case1 memory cores acc h hpick hlen =>
    intro hne e
    exact absurd (List.length_eq_zero.mp hlen) hne
  | case2 memory cores acc h hpick hlen =>
    intro hne e
    rw [gen_tests, dif_pos h, hpick, if_neg hlen]
    simp
  | case3 memory cores acc h t hpick cfg ih =>
    intro hne e
    rw [gen_tests, dif_pos h, hpick]
    simp only [cfg] at ih
    exact ih (by simp) e
  | case4 memory cores acc h =>
    intro hne e
    rw [gen_tests, dif_neg h]
    simp

/-- C9: the allocation loop fails with the nothing-to-schedule error exactly
when the resource guard still holds, no candidate is available, and zero
candidates have been accepted; once at least one candidate is accepted no
error can occur, and a missing candidate then terminates the loop with the
accepted list returned unchanged. -/
theorem c9_nothing_to_schedule_iff (bitness : Int) (pick : Nat → Option Candidate)
    (sc sm : Nat → Nat) (memory cores : Int) :
    (gen_tests bitness pick sc sm memory cores [] = .error "Nothing to do." ↔
      1024 ≤ memory ∧ 0 < cores ∧ pick 0 = none) ∧
    (∀ acc, acc ≠ [] → ∀ e, gen_tests bitness pick sc sm memory cores acc ≠ .error e) ∧
    (∀ acc : List RunItem, acc ≠ [] → 1024 ≤ memory → 0 < cores →
      pick acc.length = none →
      gen_tests bitness pick sc sm memory cores acc = .ok acc) := by
  refine ⟨⟨?_, ?_⟩, gen_tests_ok_of_ne_nil bitness pick sc sm memory cores, ?_⟩
  · intro herr
    by_cases hg : 1024 ≤ memory ∧ 0 < cores
    · rcases hp : pick 0 with _ | t
      · exact ⟨hg.1, hg.2, rfl⟩
      · exfalso
        rw [gen_tests, dif_pos hg] at herr
        have hp' : pick (List.length ([] : List RunItem)) = some t := hp
        rw [hp'] at herr
        exact gen_tests_ok_of_ne_nil bitness pick sc sm _ _ _ (by simp) _ herr
    · rw [gen_tests, dif_neg hg] at herr
      exact absurd herr (by simp)
  · rintro ⟨hm, hc, hp⟩
    rw [gen_tests, dif_pos ⟨hm, hc⟩]
    have hp' : pick (List.length ([] : List RunItem)) = none := hp
    rw [hp']
    rfl
  · intro acc hne hm hc hp
    rw [gen_tests, dif_pos ⟨hm, hc⟩, hp,
      if_neg (fun hl => hne (List.length_eq_zero.mp hl))]

/-- C9 witness: a run with a healthy budget and no candidate at all fails
with the nothing-to-schedule error. -/
theorem c9_nothing_to_schedule_iff_witness :
    gen_tests 0 (fun _ => none) (fun _ => 0) (fun _ => 0) 2048 2 [] =
      .error "Nothing to do." :=
  (c9_nothing_to_schedule_iff 0 (fun _ => none) (fun _ => 0) (fun _ => 0)
    2048 2).1.mpr ⟨by norm_num, by norm_num, rfl⟩

/-- C2 (amended): every assigned memory value is a multiple of 256, at least
1024, and strictly below budget + 256 — hence within the remaining budget
whenever that budget is a multiple of 256, but able to exceed a non-aligned
budget by up to 255. -/
theorem c2_memory_granularity_amended (memory cores bitness : Int)
    (smp bigmem seedC seedM : Nat) (hm : 1024 ≤ memory) :
    (get_test_config memory cores bitness smp bigmem seedC seedM).memory % 256 = 0 ∧
      1024 ≤ (get_test_config memory cores bitness smp bigmem seedC seedM).memory ∧
      (get_test_config memory cores bitness smp bigmem seedC seedM).memory < memory + 256 ∧
      (memory % 256 = 0 →
        (get_test_config memory cores bitness smp bigmem seedC seedM).memory ≤ memory) := by
  have := config_memory_spec memory bigmem seedM hm
  simp only [get_test_config_memory]
  tauto

/-- C2 witness: with an aligned budget of 2048 the drawn memory is an
aligned value in `[1024, 2048]`. -/
theorem c2_memory_granularity_amended_witness :
    (1024 : Int) ≤ 2048 ∧
      ((get_test_config 2048 2 0 1 0 0 0).memory % 256 = 0 ∧
        1024 ≤ (get_test_config 2048 2 0 1 0 0 0).memory ∧
        (get_test_config 2048 2 0 1 0 0 0).memory < 2048 + 256 ∧
        ((2048 : Int) % 256 = 0 → (get_test_config 2048 2 0 1 0 0 0).memory ≤ 2048)) :=
  ⟨by norm_num, c2_memory_granularity_amended 2048 2 0 1 0 0 0 (by norm_num)⟩

/-- C2 counterexample: with 1076 MB remaining (reachable from a host with
2100 MB of memory, which `chk_memory` accepts), one possible draw assigns
1280 MB, exceeding the remaining budget. -/
theorem c2_memory_exceeds_budget_cex :
    (get_test_config 1076 2 0 0 0 0 1).memory = 1280 ∧ (1076 : Int) < 1280 := by
  constructor
  · rw [get_test_config_memory]
    norm_num [config_memory, randrange]
  · norm_num

/-- C7: the nested-paging flag is 0 exactly when the assigned memory exceeds
3840 on a 32-bit target; memory of exactly 3840 and 64-bit targets always
yield hap = 1. -/
theorem c7_hap_iff (memory cores bitness : Int) (smp bigmem seedC seedM : Nat) :
    ((get_test_config memory cores bitness smp bigmem seedC seedM).hap = 0 ↔
      3840 < (get_test_config memory cores bitness smp bigmem seedC seedM).memory ∧
        bitness = 0) ∧
    ((get_test_config memory cores bitness smp bigmem seedC seedM).memory = 3840 →
      (get_test_config memory cores bitness smp bigmem seedC seedM).hap = 1) ∧
    (bitness = 1 →
      (get_test_config memory cores bitness smp bigmem seedC seedM).hap = 1) := by
  simp only [get_test_config_hap, get_test_config_memory]
  refine ⟨?_, ?_, ?_⟩ <;> split_ifs with h <;> omega

/-- C7 witness: at an assigned memory of 4096 on a 32-bit target the flag is
0; the theorem's boundary clauses instantiated at a concrete draw. -/
theorem c7_hap_iff_witness :
    ((get_test_config 8192 2 0 1 1 0 0).hap = 0 ↔
      3840 < (get_test_config 8192 2 0 1 1 0 0).memory ∧ (0 : Int) = 0) ∧
    ((get_test_config 8192 2 0 1 1 0 0).memory = 3840 →
      (get_test_config 8192 2 0 1 1 0 0).hap = 1) ∧
    ((0 : Int) = 1 → (get_test_config 8192 2 0 1 1 0 0).hap = 1) :=
  c7_hap_iff 8192 2 0 1 1 0 0

/-- C8 (amended): the shadow-memory value is the floor of
`memory * 10 / 1024` (Python 2 integer division), which for the 256-aligned
memory values the allocator produces differs from the exact quotient by at
most one half — a nearest integer with ties broken downward, not the
round-half-up value. -/
theorem c8_shadowmem_floor_amended (memory cores bitness : Int)
    (smp bigmem seedC seedM : Nat) (hm : 1024 ≤ memory) :
    (get_test_config memory cores bitness smp bigmem seedC seedM).shadowmem =
      (get_test_config memory cores bitness smp bigmem seedC seedM).memory * 10 / 1024 ∧
      0 ≤ (get_test_config memory cores bitness smp bigmem seedC seedM).memory * 10 -
          1024 * (get_test_config memory cores bitness smp bigmem seedC seedM).shadowmem ∧
      (get_test_config memory cores bitness smp bigmem seedC seedM).memory * 10 -
          1024 * (get_test_config memory cores bitness smp bigmem seedC seedM).shadowmem ≤ 512 := by
  have := config_memory_spec memory bigmem seedM hm
  simp only [get_test_config_shadowmem, get_test_config_memory]
  refine ⟨trivial, ?_, ?_⟩ <;> omega

/-- C8 witness: the amended statement at a concrete draw (memory 1280,
shadow memory 12). -/
theorem c8_shadowmem_floor_amended_witness :
    (1024 : Int) ≤ 1280 ∧
      ((get_test_config 1280 2 0 0 0 0 1).shadowmem =
        (get_test_config 1280 2 0 0 0 0 1).memory * 10 / 1024 ∧
        0 ≤ (get_test_config 1280 2 0 0 0 0 1).memory * 10 -
            1024 * (get_test_config 1280 2 0 0 0 0 1).shadowmem ∧
        (get_test_config 1280 2 0 0 0 0 1).memory * 10 -
            1024 * (get_test_config 1280 2 0 0 0 0 1).shadowmem ≤ 512) :=
  ⟨by norm_num, c8_shadowmem_floor_amended 1280 2 0 0 0 0 1 (by norm_num)⟩

/-- C8 counterexample: a draw assigning 1280 MB yields shadow memory 12,
while rounding 1280 * 10 / 1024 = 12.5 to the nearest integer (half up, as
the spec formula `round` denotes on a real quotient) yields 13. -/
theorem c8_shadowmem_not_round_nearest_cex :
    (get_test_config 1280 2 0 0 0 0 1).shadowmem = 12 ∧
      ((get_test_config 1280 2 0 0 0 0 1).memory * 10 * 2 + 1024) / 2048 = 13 := by
  have hmem : (get_test_config 1280 2 0 0 0 0 1).memory = 1280 := by
    rw [get_test_config_memory]
    norm_num [config_memory, randrange]
  constructor
  · rw [get_test_config_shadowmem]
    norm_num [config_memory, randrange]
  · rw [hmem]
    norm_num

/-- C3 (amended): accepted cores sum to at most target cores + 1 exactly as
stated; accepted memory obeys `sum + 1024 ≤ target memory` whenever the
host's stated memory is a multiple of 256, and in general only the slack
bound `sum + 1024 ≤ target memory + 255` holds.  `M - 1024` and `C + 1` are
the budget adjustments of `get_host_info` (generator.py 97-98). -/
theorem c3_resource_bounds_amended (M C bitness : Int)
    (pick : Nat → Option Candidate) (sc sm : Nat → Nat) (l : List RunItem)
    (hM : 1024 ≤ M) (hC : 0 ≤ C)
    (h : gen_tests bitness pick sc sm (M - 1024) (C + 1) [] = .ok l) :
    memSum l + 1024 ≤ M + 255 ∧
      (M % 256 = 0 → memSum l + 1024 ≤ M) ∧
      coreSum l ≤ C + 1 := by
  have := gen_tests_sums bitness pick sc sm (M - 1024) (C + 1) []
    (by omega) (by omega) l h
  simp only [memSum_nil, coreSum_nil] at this
  unfold roundUp256 at this
  omega

/-- C3 witness: a host too small to fit any guest yields the empty run, for
which all three bounds hold. -/
theorem c3_resource_bounds_amended_witness :
    (1024 : Int) ≤ 1500 ∧ (0 : Int) ≤ 1 ∧
      (memSum [] + 1024 ≤ 1500 + 255 ∧
        ((1500 : Int) % 256 = 0 → memSum [] + 1024 ≤ 1500) ∧
        coreSum [] ≤ 1 + 1) :=
  ⟨by norm_num, by norm_num,
    c3_resource_bounds_amended 1500 1 0 (fun _ => none) (fun _ => 0) (fun _ => 0)
      [] (by norm_num) (by norm_num)
      (by rw [gen_tests, dif_neg (by norm_num)])⟩

/-- The single candidate of the C3 counterexample run. -/
def cexCand : Candidate :=
  { scheduleId := 1, image := "img", format := "raw", testName := "tst",
    testCommand := "cmd", bigmem := 0, smp := 0, bitness := 0 }

/-- Candidate oracle of the C3 counterexample run: one candidate, then none. -/
def cexPick : Nat → Option Candidate := fun k => if k = 0 then some cexCand else none

/-- The guest accepted in the C3 counterexample run. -/
def cexItem : RunItem :=
  { scheduleId := 1, image := "img", bigmem := 0, smp := 0, cores := 1,
    memory := 1280, shadowmem := 12, hap := 1, vnc := 0, runid := 1 }

/-- C3 counterexample: a host with 2100 MB of memory (accepted by
`chk_memory`) and 1 core can accept a single 1280 MB guest, and then
`sum(assigned_memory) + 1024 = 2304 > 2100`. -/
theorem c3_sum_bound_cex :
    gen_tests 0 cexPick (fun _ => 0) (fun _ => 1) (2100 - 1024) (1 + 1) [] =
      .ok [cexItem] ∧
      memSum [cexItem] + 1024 > 2100 := by
  constructor
  · have h1 : gen_tests 0 cexPick (fun _ => 0) (fun _ => 1) (2100 - 1024) (1 + 1) [] =
        gen_tests 0 cexPick (fun _ => 0) (fun _ => 1) (-204) 1 [cexItem] := by
      rw [gen_tests, dif_pos (by norm_num)]
      have hp : cexPick (List.length ([] : List RunItem)) = some cexCand := rfl
      rw [hp]
      norm_num [cexCand, cexItem, get_test_config, config_memory, config_cores,
        randrange]
    rw [h1, gen_tests, dif_neg (by norm_num)]
  · norm_num [cexItem, memSum]

/-- Python `random.choice(l)`, seed-indexed; `none` models the `IndexError` that
`random.choice` raises on an empty list. -/
def choice {α : Type} (l : List α) (seed : Nat) : Option α :=
  l.get? (seed % l.length)

/-- The bucket classification of `get_test` (generator.py 307-321).  Line
307, `smallup = smallsmp = bigup = bigsmp = []`, binds all four names to a
single shared list object, so each `append` of the classification loop
mutates that one list: the function returns the same list four times over,
in the roles (smallup, smallsmp, bigup, bigsmp). -/
def classify_buckets (rows : List Candidate) :
    List Candidate × List Candidate × List Candidate × List Candidate :=
  let shared := rows.foldl (fun acc row =>
    if row.bigmem = 0 ∧ row.smp = 0 then acc ++ [row]
    else if row.bigmem = 0 ∧ row.smp = 1 then acc ++ [row]
    else if row.bigmem = 1 ∧ row.smp = 0 then acc ++ [row]
    else if row.bigmem = 1 ∧ row.smp = 1 then acc ++ [row]
    else acc) []
  (shared, shared, shared, shared)

/-- Embeds `TestRunGenerator.do_weighing` (generator.py 241-275) up to the
final `random.choice`: returns the list the choice is drawn from. -/
def do_weighing (memory cores : Int)
    (smallup smallsmp bigup bigsmp : List Candidate) : List Candidate :=
  if 4096 < memory ∧ (bigup ++ bigsmp).length ≠ 0 then
    if 1 < cores ∧ bigsmp.length ≠ 0 then bigsmp
    else if cores = 1 ∧ bigup.length ≠ 0 then bigup
    else bigup ++ bigsmp
  else if 1 < cores ∧ smallsmp.length ≠ 0 then smallsmp
  else if 1 < cores ∧ smallup.length ≠ 0 then smallup
  else if 1 < cores ∧ bigsmp.length ≠ 0 then bigsmp
  else if cores = 1 ∧ smallup.length ≠ 0 then smallup
  else if cores = 1 ∧ bigup.length ≠ 0 then bigup
  else if cores = 1 ∧ smallsmp.length ≠ 0 then smallsmp
  else smallup ++ smallsmp ++ bigup ++ bigsmp

/-- The bucket construction and weighted pick of `get_test`
(generator.py 307-325): classify the fetched rows, then draw from the list
`do_weighing` selects. -/
def get_test_pick (memory cores : Int) (rows : List Candidate) (seed : Nat) :
    Option Candidate :=
  let b := classify_buckets rows
  choice (do_weighing memory cores b.1 b.2.1 b.2.2.1 b.2.2.2) seed

/-- A row of the `image` table (initdb.py), restricted to the columns the
rotation queries consult. -/
structure Image where
  imageId : Nat
  imageName : String
  vendorId : Nat
  is64bit : Nat
  isEnabled : Nat
  deriving Repr, DecidableEq

/-- A row of a `host_schedule`/`subject_schedule` table. -/
structure Entry where
  scheduleId : Nat
  targetId : Nat
  testId : Nat
  imageId : Nat
  isDone : Nat
  deriving Repr, DecidableEq

/-- The relevant tables of the catalog store. -/
structure Store where
  images : List Image
  entries : List Entry
  deriving Repr, DecidableEq

/-- The join `LEFT JOIN image ON ..._schedule.image_id=image.image_id`: the image row
a schedule row joins to (image_id is the table's primary key). -/
def lookupImage (s : Store) (iid : Nat) : Option Image :=
  s.images.find? (fun i => i.imageId == iid)

/-- The generator's view during `get_vendor` (generator.py 163-172): the
store plus the target row's id and bitness, `self.resources['lastvendor']`,
and the image names of `self.tests` (the `NOT IN` exclusion). -/
structure RotState where
  store : Store
  targetId : Nat
  bitness : Nat
  lastVendor : Nat
  usedImages : List String
  deriving Repr, DecidableEq

/-- Vendor ids of the rows of the vendor-selection query (generator.py
173-180): schedule rows of the target joined to an enabled image whose
bitness does not exceed the target's and whose name is not excluded.  The
query's optional `AND vendor_id>?` bound is applied as a filter by
`get_vendor_select`, and `ORDER BY vendor_id LIMIT 1` is the least element. -/
def vendor_rows (st : RotState) : List Nat :=
  st.store.entries.filterMap (fun e =>
    if e.targetId = st.targetId then
      (lookupImage st.store e.imageId).bind (fun img =>
        if img.is64bit ≤ st.bitness ∧ img.isEnabled = 1 ∧
            img.imageName ∉ st.usedImages then
          some img.vendorId
        else none)
    else none)

/-- Least element of a list of vendor ids (`ORDER BY vendor_id LIMIT 1`). -/
def listMin : List Nat → Option Nat
  | [] => none
  | x :: xs =>
    match listMin xs with
    | none => some x
    | some m => some (min x m)

/-- The vendor-selection part of `get_vendor` (generator.py 181-192):
first with the `vendor_id > last_vendor` bound, then wrapping around
without it; 0 is the source's failure value. -/
def get_vendor_select (st : RotState) : Nat :=
  match listMin ((vendor_rows st).filter (fun v => st.lastVendor < v)) with
  | some v => v
  | none =>
    match listMin (vendor_rows st) with
    | some v => v
    | none => 0

/-- The row filter of the is_done query of `get_vendor` (generator.py
194-205): a schedule row of the target with the given done flag whose image
is enabled, bitness-compatible, belongs to `vendor`, and is not among the
excluded names. -/
def sched_match (st : RotState) (done vendor : Nat) (excl : List String)
    (e : Entry) : Bool :=
  e.targetId == st.targetId && e.isDone == done &&
    (match lookupImage st.store e.imageId with
     | some img =>
       decide (img.is64bit ≤ st.bitness) && img.isEnabled == 1 &&
         img.vendorId == vendor && !(excl.contains img.imageName)
     | none => false)

/-- Result rows of the is_done query of `get_vendor`. -/
def sched_rows (st : RotState) (done vendor : Nat) (excl : List String) :
    List Entry :=
  st.store.entries.filter (sched_match st done vendor excl)

/-- Query `UPDATE ..._schedule SET is_done=0 WHERE schedule_id IN ids`. -/
def reset_entries (s : Store) (ids : List Nat) : Store :=
  { s with entries := s.entries.map (fun e =>
      if e.scheduleId ∈ ids then { e with isDone := 0 } else e) }

/-- Query `UPDATE ..._schedule SET is_done=1 WHERE schedule_id IN ids`.  SQLite
accepts an empty `IN ()` list as matching no row. -/
def mark_done (s : Store) (ids : List Nat) : Store :=
  { s with entries := s.entries.map (fun e =>
      if e.scheduleId ∈ ids then { e with isDone := 1 } else e) }

/-- Query `UPDATE host/subject SET last_vendor_id=?` together with
`self.resources['lastvendor'] = vendor` (generator.py 233-238), folded into
the one modelled field. -/
def set_last_vendor (st : RotState) (v : Nat) : RotState :=
  { st with lastVendor := v }

/-- Embeds `TestRunGenerator.get_vendor` (generator.py 150-239).  The result
pairs the returned vendor (0 = the source's failure value) with the updated
state; `none` models the `IndexError` that `random.choice` would raise on an
empty fetchall list in the unlock branch. -/
def get_vendor (seed : Nat) (st : RotState) : Option (Nat × RotState) :=
  let v := get_vendor_select st
  if v = 0 then some (0, st)
  else if sched_rows st 0 v st.usedImages ≠ [] then
    some (v, set_last_vendor st v)
  else if sched_rows st 0 v [] ≠ [] then
    match choice (sched_rows st 1 v st.usedImages) seed with
    | some e =>
      some (v, set_last_vendor
        { st with store := reset_entries st.store [e.scheduleId] } v)
    | none => none
  else
    some (v, set_last_vendor
      { st with store :=
          reset_entries st.store ((sched_rows st 1 v []).map (·.scheduleId)) } v)

/-- The rows the `get_test` query fetches for the chosen vendor
(generator.py 294-311): exactly the target's undone schedule rows for that
vendor with the used-image exclusion. -/
def get_test_candidates (st : RotState) (vendor : Nat) : List Entry :=
  sched_rows st 0 vendor st.usedImages

/-- The generator state `do_finalize` acts on (generator.py 388-402): the
store, the schedule mode, the host row's last-subject pointer, the chosen
subject id, and the schedule ids of the accepted tests (`self.tests`). -/
structure FinState where
  store : Store
  subjectMode : Bool
  hostLastSubject : Nat
  subjectId : Nat
  testIds : List Nat
  deriving Repr, DecidableEq

/-- Embeds `TestRunGenerator.do_finalize` (generator.py 388-402): mark the
accepted schedule rows done, persist the subject pointer in subject mode,
and clear `self.tests`. -/
def do_finalize (g : FinState) : FinState :=
  { g with store := mark_done g.store g.testIds,
           hostLastSubject := if g.subjectMode then g.subjectId else g.hostLastSubject,
           testIds := [] }

theorem choice_isSome {α : Type} (l : List α) (seed : Nat) (h : l ≠ []) :
    (choice l seed).isSome := by
  unfold choice
  have hl : 0 < l.length := List.length_pos.mpr h
  have hlt : seed % l.length < l.length := Nat.mod_lt _ hl
  rw [List.get?_eq_getElem?]
  simp [hlt]

theorem choice_mem {α : Type} (l : List α) (seed : Nat) (e : α)
    (h : choice l seed = some e) : e ∈ l :=
  List.get?_mem h

theorem listMin_eq_none_iff (l : List Nat) : listMin l = none ↔ l = [] := by
  cases l with
  | nil => simp [listMin]
  | cons x xs =>
    rw [listMin]
    cases h : listMin xs <;> simp

theorem listMin_mem (l : List Nat) (v : Nat) (h : listMin l = some v) :
    v ∈ l := by
  induction l generalizing v with
  | nil => simp [listMin] at h
  | cons x xs ih =>
    rw [listMin] at h
    cases hm : listMin xs with
    | none =>
      rw [hm] at h
      cases h
      exact List.mem_cons_self _ _
    | some m =>
      rw [hm] at h
      cases h
      rcases le_total x m with h1 | h1
      · rw [min_eq_left h1]
        exact List.mem_cons_self _ _
      · rw [min_eq_right h1]
        exact List.mem_cons_of_mem _ (ih m hm)

theorem listMin_le (l : List Nat) (v : Nat) (h : listMin l = some v) :
    ∀ x ∈ l, v ≤ x := by
  induction l generalizing v with
  | nil => simp [listMin] at h
  | cons x xs ih =>
    intro y hy
    rw [listMin] at h
    cases hm : listMin xs with
    | none =>
      rw [hm] at h
      cases h
      rcases List.mem_cons.mp hy with h2 | h2
      · omega
      · exact absurd ((listMin_eq_none_iff xs).mp hm ▸ h2) (List.not_mem_nil y)
    | some m =>
      rw [hm] at h
      cases h
      rcases List.mem_cons.mp hy with h2 | h2
      · subst h2; exact min_le_left _ _
      · exact le_trans (min_le_right _ _) (ih m hm y h2)

/-- C1 counterexample fixture: a small-uniprocessor candidate row. -/
def c1small : Candidate :=
  { scheduleId := 1, image := "imgA", format := "raw", testName := "t1",
    testCommand := "c1", bigmem := 0, smp := 0, bitness := 0 }

/-- C1 counterexample fixture: a large-multiprocessor candidate row. -/
def c1big : Candidate :=
  { scheduleId := 2, image := "imgB", format := "raw", testName := "t2",
    testCommand := "c2", bigmem := 1, smp := 1, bitness := 0 }

/-- C1: refuted on the code.  Because generator.py 307 binds all four bucket
names to one shared list, the "bigsmp" bucket of a mixed candidate set also
contains the small-uniprocessor row, the buckets are not disjoint, and with
memory 5000 > 4096 and cores 2 > 1 the pick drawn from the "bigsmp" list can
be the candidate with is_bigmem = 0, is_smp = 0. -/
theorem c1_buckets_alias_pick_not_bigsmp :
    (classify_buckets [c1small, c1big]).2.2.2 = [c1small, c1big] ∧
      get_test_pick 5000 2 [c1small, c1big] 0 = some c1small ∧
      c1small.bigmem = 0 ∧ c1small.smp = 0 := by
  decide

theorem mark_done_nil (s : Store) : mark_done s [] = s := by
  cases s with
  | mk imgs ents => simp [mark_done]

/-- C6: finalizing twice with the same candidate set is the identity on the
second call (the cleared `self.tests` makes the second UPDATE's `IN ()` list
empty, which SQLite accepts as matching no row, and re-writing the subject
pointer writes the same value), and each invocation leaves every accepted
candidate's schedule row marked done. -/
theorem c6_finalize_idempotent (g : FinState) :
    do_finalize (do_finalize g) = do_finalize g ∧
      ∀ e ∈ (do_finalize g).store.entries,
        e.scheduleId ∈ g.testIds → e.isDone = 1 := by
  constructor
  · show do_finalize
      { g with store := mark_done g.store g.testIds,
               hostLastSubject :=
                 if g.subjectMode then g.subjectId else g.hostLastSubject,
               testIds := [] } = _
    unfold do_finalize
    simp only [mark_done_nil]
    split <;> rfl
  · intro e he hid
    unfold do_finalize mark_done at he
    simp only [List.mem_map] at he
    obtain ⟨x, hx, hxe⟩ := he
    by_cases hmem : x.scheduleId ∈ g.testIds
    · rw [if_pos hmem] at hxe
      rw [← hxe]
    · rw [if_neg hmem] at hxe
      rw [← hxe] at hid
      exact absurd hid hmem

/-- C6 witness fixture: one undone schedule row about to be finalized in
subject mode. -/
def c6state : FinState :=
  { store := { images := [],
               entries := [{ scheduleId := 1, targetId := 1, testId := 1,
                             imageId := 1, isDone := 0 }] },
    subjectMode := true, hostLastSubject := 0, subjectId := 5, testIds := [1] }

/-- C6 witness: the idempotence and done-marking statement at a concrete
finalizer state. -/
theorem c6_finalize_idempotent_witness :
    do_finalize (do_finalize c6state) = do_finalize c6state ∧
      ∀ e ∈ (do_finalize c6state).store.entries,
        e.scheduleId ∈ c6state.testIds → e.isDone = 1 :=
  c6_finalize_idempotent c6state

/-- Decidability of an existential over the value of an `Option`. -/
def decidableExOptEq {α : Type} {p : α → Prop} [DecidablePred p] :
    (o : Option α) → Decidable (∃ x, o = some x ∧ p x)
  | none => isFalse (by rintro ⟨x, h, _⟩; cases h)
  | some a =>
    decidable_of_iff (p a)
      ⟨fun h => ⟨a, rfl, h⟩, fun ⟨x, hx, h⟩ => by cases hx; exact h⟩

instance {α : Type} {p : α → Prop} [DecidablePred p] (o : Option α) :
    Decidable (∃ x, o = some x ∧ p x) :=
  decidableExOptEq o

/-- The amended vendor qualification: some schedule row of the target joins
an enabled, bitness-compatible image of vendor `v` whose name is not among
the used images — with no condition on the row's done flag, matching the
selection query of generator.py 173-180. -/
def VendorQualifies (st : RotState) (v : Nat) : Prop :=
  ∃ e, e ∈ st.store.entries ∧ (e.targetId = st.targetId ∧
    ∃ img, lookupImage st.store e.imageId = some img ∧
      (img.is64bit ≤ st.bitness ∧ img.isEnabled = 1 ∧
        img.imageName ∉ st.usedImages ∧ img.vendorId = v))

instance (st : RotState) (v : Nat) : Decidable (VendorQualifies st v) := by
  unfold VendorQualifies
  exact List.decidableBEx _ _

/-- The vendor qualification exactly as the spec's words state it, for
comparison: additionally demands that the qualifying schedule row is
not yet done. -/
def SpecVendorQualifies (st : RotState) (v : Nat) : Prop :=
  ∃ e, e ∈ st.store.entries ∧ (e.targetId = st.targetId ∧ e.isDone = 0 ∧
    ∃ img, lookupImage st.store e.imageId = some img ∧
      (img.is64bit ≤ st.bitness ∧ img.isEnabled = 1 ∧
        img.imageName ∉ st.usedImages ∧ img.vendorId = v))

instance (st : RotState) (v : Nat) : Decidable (SpecVendorQualifies st v) := by
  unfold SpecVendorQualifies
  exact List.decidableBEx _ _

theorem vendor_rows_mem (st : RotState) (v : Nat) :
    v ∈ vendor_rows st ↔ VendorQualifies st v := by
  unfold vendor_rows VendorQualifies
  rw [List.mem_filterMap]
  constructor
  · rintro ⟨e, he, hv⟩
    refine ⟨e, he, ?_⟩
    by_cases ht : e.targetId = st.targetId
    · rw [if_pos ht] at hv
      cases himg : lookupImage st.store e.imageId with
      | none => rw [himg] at hv; cases hv
      | some img =>
        rw [himg] at hv
        simp only [Option.some_bind] at hv
        by_cases hc : img.is64bit ≤ st.bitness ∧ img.isEnabled = 1 ∧
            img.imageName ∉ st.usedImages
        · rw [if_pos hc] at hv
          cases hv
          exact ⟨ht, img, rfl, hc.1, hc.2.1, hc.2.2, rfl⟩
        · rw [if_neg hc] at hv; cases hv
    · rw [if_neg ht] at hv; cases hv
  · rintro ⟨e, he, ht, img, himg, h1, h2, h3, h4⟩
    refine ⟨e, he, ?_⟩
    rw [if_pos ht, himg]
    simp only [Option.some_bind]
    rw [if_pos ⟨h1, h2, h3⟩, h4]

/-- A chosen vendor id is a row of the selection query. -/
theorem get_vendor_select_qualifies (st : RotState)
    (h : get_vendor_select st ≠ 0) :
    VendorQualifies st (get_vendor_select st) := by
  rw [← vendor_rows_mem]
  unfold get_vendor_select at *
  cases h1 : listMin ((vendor_rows st).filter (fun v => st.lastVendor < v)) with
  | some v =>
    exact (List.mem_filter.mp (listMin_mem _ _ h1)).1
  | none =>
    cases h2 : listMin (vendor_rows st) with
    | some v =>
      exact listMin_mem _ _ h2
    | none =>
      rw [h1, h2] at h
      exact absurd rfl h

/-- Images produced by `lookupImage` are rows of the image table. -/
theorem lookupImage_mem (s : Store) (iid : Nat) (img : Image)
    (h : lookupImage s iid = some img) : img ∈ s.images :=
  List.mem_of_find?_eq_some h

/-- C4 (amended): the rotator's selection returns the smallest vendor id
above `last_vendor` among vendors owning an enabled, bitness-compatible,
non-excluded image with a schedule row of any done-ness (the code's query
has no not-yet-done condition); it wraps to the smallest such vendor id
overall, and returns the failure value 0 exactly when no vendor qualifies. -/
theorem c4_vendor_select_amended (st : RotState)
    (hids : ∀ img ∈ st.store.images, 1 ≤ img.vendorId) :
    (get_vendor_select st = 0 ↔ ∀ v, ¬ VendorQualifies st v) ∧
      (∀ v, VendorQualifies st v → st.lastVendor < v →
        VendorQualifies st (get_vendor_select st) ∧
          st.lastVendor < get_vendor_select st ∧ get_vendor_select st ≤ v) ∧
      ((∃ v, VendorQualifies st v) →
        (∀ v, VendorQualifies st v → v ≤ st.lastVendor) →
        VendorQualifies st (get_vendor_select st) ∧
          ∀ v, VendorQualifies st v → get_vendor_select st ≤ v) := by
  have hpos : ∀ v, VendorQualifies st v → 1 ≤ v := by
    rintro v ⟨e, he, ht, img, himg, h1, h2, h3, h4⟩
    exact h4 ▸ hids img (lookupImage_mem _ _ _ himg)
  refine ⟨⟨?_, ?_⟩, ?_, ?_⟩
  · intro h0 v hq
    have h1 := hpos v hq
    have hq' := (vendor_rows_mem st v).mpr hq
    unfold get_vendor_select at h0
    cases hf : listMin ((vendor_rows st).filter (fun v => st.lastVendor < v)) with
    | some w =>
      rw [hf] at h0
      subst h0
      have hw := (List.mem_filter.mp (listMin_mem _ _ hf)).1
      have := hpos 0 ((vendor_rows_mem st 0).mp hw)
      omega
    | none =>
      rw [hf] at h0
      cases hg : listMin (vendor_rows st) with
      | some w =>
        rw [hg] at h0
        subst h0
        have := hpos 0 ((vendor_rows_mem st 0).mp (listMin_mem _ _ hg))
        omega
      | none =>
        rw [(listMin_eq_none_iff _).mp hg] at hq'
        exact absurd hq' (List.not_mem_nil v)
  · intro hnone
    have hempty : vendor_rows st = [] := by
      rw [List.eq_nil_iff_forall_not_mem]
      intro v hv
      exact hnone v ((vendor_rows_mem st v).mp hv)
    unfold get_vendor_select
    rw [hempty]
    rfl
  · intro v hq hlt
    have hvf : v ∈ (vendor_rows st).filter (fun v => st.lastVendor < v) :=
      List.mem_filter.mpr ⟨(vendor_rows_mem st v).mpr hq, by simpa using hlt⟩
    unfold get_vendor_select
    cases hf : listMin ((vendor_rows st).filter (fun v => st.lastVendor < v)) with
    | some w =>
      have hwmem := List.mem_filter.mp (listMin_mem _ _ hf)
      exact ⟨(vendor_rows_mem st w).mp hwmem.1, by simpa using hwmem.2,
        listMin_le _ _ hf v hvf⟩
    | none =>
      rw [(listMin_eq_none_iff _).mp hf] at hvf
      exact absurd hvf (List.not_mem_nil v)
  · rintro ⟨v, hq⟩ hall
    have hfempty : (vendor_rows st).filter (fun v => st.lastVendor < v) = [] := by
      rw [List.eq_nil_iff_forall_not_mem]
      intro w hw
      have hwm := List.mem_filter.mp hw
      have := hall w ((vendor_rows_mem st w).mp hwm.1)
      have := of_decide_eq_true hwm.2
      omega
    unfold get_vendor_select
    rw [hfempty]
    cases hg : listMin (vendor_rows st) with
    | some w =>
      refine ⟨(vendor_rows_mem st w).mp (listMin_mem _ _ hg), ?_⟩
      intro u hu
      exact listMin_le _ _ hg u ((vendor_rows_mem st u).mpr hu)
    | none =>
      have hv : v ∈ vendor_rows st := (vendor_rows_mem st v).mpr hq
      rw [(listMin_eq_none_iff _).mp hg] at hv
      exact absurd hv (List.not_mem_nil v)

/-- C4 counterexample fixture: vendor 1 owns image A whose only schedule
row is already done; vendor 2 owns image B with an undone row. -/
def c4state : RotState :=
  { store :=
      { images :=
          [{ imageId := 1, imageName := "A", vendorId := 1, is64bit := 0,
             isEnabled := 1 },
           { imageId := 2, imageName := "B", vendorId := 2, is64bit := 0,
             isEnabled := 1 }],
        entries :=
          [{ scheduleId := 1, targetId := 1, testId := 1, imageId := 1,
             isDone := 1 },
           { scheduleId := 2, targetId := 1, testId := 1, imageId := 2,
             isDone := 0 }] },
    targetId := 1, bitness := 0, lastVendor := 0, usedImages := [] }

/-- C4 counterexample: the code selects vendor 1, which has no not-yet-done
schedule entry, although vendor 2 qualifies under the claim's condition —
so the selection does not return the smallest vendor with a not-yet-done
entry as claimed. -/
theorem c4_vendor_select_ignores_done_cex :
    get_vendor_select c4state = 1 ∧ ¬ SpecVendorQualifies c4state 1 ∧
      SpecVendorQualifies c4state 2 := by
  decide

/-- C4 witness: the amended characterization applied at the counterexample
store, instantiated at the qualifying vendor 2. -/
theorem c4_vendor_select_amended_witness :
    VendorQualifies c4state (get_vendor_select c4state) ∧
      c4state.lastVendor < get_vendor_select c4state ∧
      get_vendor_select c4state ≤ 2 :=
  (c4_vendor_select_amended c4state (by decide)).2.1 2 (by decide) (by decide)

theorem sched_match_iff (st : RotState) (done vendor : Nat) (excl : List String)
    (e : Entry) :
    sched_match st done vendor excl e = true ↔
      e.targetId = st.targetId ∧ e.isDone = done ∧
        ∃ img, lookupImage st.store e.imageId = some img ∧
          (img.is64bit ≤ st.bitness ∧ img.isEnabled = 1 ∧
            img.vendorId = vendor ∧ img.imageName ∉ excl) := by
  unfold sched_match
  cases himg : lookupImage st.store e.imageId with
  | none => simp [himg]
  | some img =>
    simp [himg]
    tauto

/-- A row matching the filter with the used-image exclusion also matches it
without the exclusion. -/
theorem sched_match_excl (st : RotState) (d v : Nat) (excl : List String)
    (e : Entry) (h : sched_match st d v excl e = true) :
    sched_match st d v [] e = true := by
  rw [sched_match_iff] at *
  obtain ⟨h1, h2, img, h3, h4, h5, h6, h7⟩ := h
  exact ⟨h1, h2, img, h3, h4, h5, h6, by simp⟩

theorem sched_rows_all_ne_nil (st : RotState) (d v : Nat) (excl : List String)
    (h : sched_rows st d v excl ≠ []) : sched_rows st d v [] ≠ [] := by
  obtain ⟨e, he⟩ := List.exists_mem_of_ne_nil _ h
  have hm := List.mem_filter.mp he
  exact List.ne_nil_of_mem
    (List.mem_filter.mpr ⟨hm.1, sched_match_excl _ _ _ _ _ hm.2⟩)

/-- C5 (amended): once `get_vendor` has chosen a vendor, its fairness
maintenance (a) leaves the store untouched when an undone, non-excluded,
enabled, bitness-compatible row for the vendor exists; (b) otherwise, when
such an undone row exists only without the exclusion, resets exactly one done
row that passes the enabled/bitness/exclusion filter (the seed-indexed
uniform choice); (c) when no undone row passes the filter even without the
exclusion, resets exactly the done rows passing the enabled/bitness filter —
not every done entry of the vendor; and in all cases persists
`last_vendor = vendor`. -/
theorem c5_fairness_maintenance_amended (seed : Nat) (st : RotState) (v : Nat)
    (st' : RotState) (hnd : (st.store.entries.map (·.scheduleId)).Nodup)
    (h : get_vendor seed st = some (v, st')) (hv : v ≠ 0) :
    st'.lastVendor = v ∧
      (sched_rows st 0 v st.usedImages ≠ [] → st'.store = st.store) ∧
      (sched_rows st 0 v st.usedImages = [] → sched_rows st 0 v [] ≠ [] →
        ∃ e, e ∈ st.store.entries ∧ sched_match st 1 v st.usedImages e = true ∧
          st'.store.images = st.store.images ∧
          st'.store.entries = st.store.entries.map
            (fun x => if x.scheduleId = e.scheduleId then { x with isDone := 0 }
              else x)) ∧
      (sched_rows st 0 v [] = [] →
        st'.store.images = st.store.images ∧
        st'.store.entries = st.store.entries.map
          (fun x => if sched_match st 1 v [] x then { x with isDone := 0 }
            else x)) := by
  rw [get_vendor] at h
  by_cases h0 : get_vendor_select st = 0
  · rw [if_pos h0] at h
    simp only [Option.some.injEq, Prod.mk.injEq] at h
    exact absurd h.1.symm hv
  · rw [if_neg h0] at h
    by_cases h1 : sched_rows st 0 (get_vendor_select st) st.usedImages ≠ []
    · rw [if_pos h1] at h
      simp only [Option.some.injEq, Prod.mk.injEq] at h
      obtain ⟨hveq, hsteq⟩ := h
      subst hveq
      subst hsteq
      refine ⟨rfl, fun _ => rfl, fun he _ => absurd he h1, fun h4 => ?_⟩
      exact absurd (sched_rows_all_ne_nil st 0 _ st.usedImages h1) (by simp [h4])
    · rw [if_neg h1] at h
      push_neg at h1
      by_cases h2 : sched_rows st 0 (get_vendor_select st) [] ≠ []
      · rw [if_pos h2] at h
        cases hch : choice (sched_rows st 1 (get_vendor_select st) st.usedImages) seed with
        | none => rw [hch] at h; cases h
        | some e =>
          rw [hch] at h
          simp only [Option.some.injEq, Prod.mk.injEq] at h
          obtain ⟨hveq, hsteq⟩ := h
          subst hveq
          subst hsteq
          have hem := List.mem_filter.mp (choice_mem _ _ _ hch)
          refine ⟨rfl, fun hne => absurd h1 hne, fun _ _ => ?_,
            fun h4 => absurd h4 h2⟩
          refine ⟨e, hem.1, hem.2, rfl, ?_⟩
          show (reset_entries st.store [e.scheduleId]).entries = _
          unfold reset_entries
          refine List.map_congr_left ?_
          intro x _
          by_cases hx : x.scheduleId = e.scheduleId <;> simp [hx]
      · rw [if_neg h2] at h
        push_neg at h2
        simp only [Option.some.injEq, Prod.mk.injEq] at h
        obtain ⟨hveq, hsteq⟩ := h
        subst hveq
        subst hsteq
        refine ⟨rfl, fun hne => absurd h1 hne,
          fun _ hne => absurd h2 hne, fun _ => ⟨rfl, ?_⟩⟩
        show (reset_entries st.store
          ((sched_rows st 1 (get_vendor_select st) []).map (·.scheduleId))).entries = _
        unfold reset_entries
        refine List.map_congr_left ?_
        intro x hx
        have hiff : (x.scheduleId ∈
            (sched_rows st 1 (get_vendor_select st) []).map (·.scheduleId)) ↔
            sched_match st 1 (get_vendor_select st) [] x = true := by
          constructor
          · intro hmem
            obtain ⟨y, hy, hyid⟩ := List.mem_map.mp hmem
            have hym := List.mem_filter.mp hy
            have hxy : y = x :=
              List.inj_on_of_nodup_map hnd hym.1 hx hyid
            exact hxy ▸ hym.2
          · intro hmatch
            exact List.mem_map.mpr
              ⟨x, List.mem_filter.mpr ⟨hx, hmatch⟩, rfl⟩
        by_cases hm : sched_match st 1 (get_vendor_select st) [] x = true
        · rw [if_pos (hiff.mpr hm), if_pos hm]
        · rw [if_neg (fun hc => hm (hiff.mp hc)),
            if_neg (by simp [hm])]

/-- C5 counterexample fixture: vendor 1 owns enabled image A and disabled
image B; both schedule rows are done. -/
def c5state : RotState :=
  { store :=
      { images :=
          [{ imageId := 1, imageName := "A", vendorId := 1, is64bit := 0,
             isEnabled := 1 },
           { imageId := 2, imageName := "B", vendorId := 1, is64bit := 0,
             isEnabled := 0 }],
        entries :=
          [{ scheduleId := 1, targetId := 1, testId := 1, imageId := 1,
             isDone := 1 },
           { scheduleId := 2, targetId := 1, testId := 1, imageId := 2,
             isDone := 1 }] },
    targetId := 1, bitness := 0, lastVendor := 0, usedImages := [] }

/-- C5 counterexample: no undone entry exists at all for the chosen vendor 1,
so the claim demands that every done entry for (target, vendor 1) be reset;
the code resets only the row whose image passes the enabled/bitness join
filter, leaving the disabled image's done row (schedule id 2) untouched. -/
theorem c5_reset_skips_filtered_entries_cex :
    (∀ e ∈ c5state.store.entries, e.isDone = 1) ∧
      (∃ img, lookupImage c5state.store 2 = some img ∧ img.vendorId = 1) ∧
      (get_vendor 0 c5state).map
          (fun p => (p.1, p.2.store.entries.map (·.isDone))) =
        some (1, [0, 1]) := by
  decide

/-- C5 witness: the amended maintenance statement at the counterexample
store (branch (c): exactly the filter-passing done rows are reset, and the
rotation pointer advances to vendor 1). -/
theorem c5_fairness_maintenance_amended_witness :
    ∃ st' : RotState, get_vendor 0 c5state = some (1, st') ∧
      (st'.lastVendor = 1 ∧
        (sched_rows c5state 0 1 c5state.usedImages ≠ [] →
          st'.store = c5state.store) ∧
        (sched_rows c5state 0 1 c5state.usedImages = [] →
          sched_rows c5state 0 1 [] ≠ [] →
          ∃ e, e ∈ c5state.store.entries ∧
            sched_match c5state 1 1 c5state.usedImages e = true ∧
            st'.store.images = c5state.store.images ∧
            st'.store.entries = c5state.store.entries.map
              (fun x => if x.scheduleId = e.scheduleId then { x with isDone := 0 }
                else x)) ∧
        (sched_rows c5state 0 1 [] = [] →
          st'.store.images = c5state.store.images ∧
          st'.store.entries = c5state.store.entries.map
            (fun x => if sched_match c5state 1 1 [] x then { x with isDone := 0 }
              else x))) := by
  refine ⟨(get_vendor 0 c5state).get (by decide) |>.2, by decide, ?_⟩
  exact c5_fairness_maintenance_amended 0 c5state 1 _ (by decide) (by decide)
    (by decide)

/-- With valid 0/1 flags, the shared bucket list of `classify_buckets` is
exactly the fetched row list: one of the four branches fires for every row. -/
theorem classify_buckets_eq (rows : List Candidate)
    (hv : ∀ r ∈ rows, (r.bigmem = 0 ∨ r.bigmem = 1) ∧ (r.smp = 0 ∨ r.smp = 1)) :
    classify_buckets rows = (rows, rows, rows, rows) := by
  unfold classify_buckets
  have key : ∀ (l : List Candidate) (acc : List Candidate),
      (∀ r ∈ l, (r.bigmem = 0 ∨ r.bigmem = 1) ∧ (r.smp = 0 ∨ r.smp = 1)) →
      l.foldl (fun acc row =>
        if row.bigmem = 0 ∧ row.smp = 0 then acc ++ [row]
        else if row.bigmem = 0 ∧ row.smp = 1 then acc ++ [row]
        else if row.bigmem = 1 ∧ row.smp = 0 then acc ++ [row]
        else if row.bigmem = 1 ∧ row.smp = 1 then acc ++ [row]
        else acc) acc = acc ++ l := by
    intro l
    induction l with
    | nil => intro acc _; simp
    | cons x xs ih =>
      intro acc hval
      rw [List.foldl_cons]
      have hx := hval x (List.mem_cons_self _ _)
      have hstep : (if x.bigmem = 0 ∧ x.smp = 0 then acc ++ [x]
          else if x.bigmem = 0 ∧ x.smp = 1 then acc ++ [x]
          else if x.bigmem = 1 ∧ x.smp = 0 then acc ++ [x]
          else if x.bigmem = 1 ∧ x.smp = 1 then acc ++ [x]
          else acc) = acc ++ [x] := by
        rcases hx.1 with h1 | h1 <;> rcases hx.2 with h2 | h2 <;>
          simp [h1, h2]
      rw [hstep, ih (acc ++ [x]) (fun r hr => hval r (List.mem_cons_of_mem _ hr))]
      simp
  rw [key rows [] hv]
  rfl

/-- With the four aliased buckets all equal to a non-empty row list, every
branch of `do_weighing` hands `random.choice` a non-empty list. -/
theorem do_weighing_same_ne_nil (memory cores : Int) (rows : List Candidate)
    (h : rows ≠ []) : do_weighing memory cores rows rows rows rows ≠ [] := by
  unfold do_weighing
  split_ifs <;> simp [h]

/-- The pick of `get_test` succeeds on any non-empty fetched row list with
valid flags. -/
theorem get_test_pick_isSome (memory cores : Int) (rows : List Candidate)
    (hne : rows ≠ [])
    (hv : ∀ r ∈ rows, (r.bigmem = 0 ∨ r.bigmem = 1) ∧ (r.smp = 0 ∨ r.smp = 1))
    (seed : Nat) : (get_test_pick memory cores rows seed).isSome := by
  unfold get_test_pick
  rw [classify_buckets_eq rows hv]
  exact choice_isSome _ _ (do_weighing_same_ne_nil memory cores rows hne)

/-- Fairness maintenance and rotation-pointer writes do not change how the
is_done query filter evaluates: it reads only the image table, the target
row and the exclusion list. -/
theorem sched_match_reset (st : RotState) (ids : List Nat) (w d u : Nat)
    (excl : List String) (e : Entry) :
    sched_match (set_last_vendor { st with store := reset_entries st.store ids } w)
      d u excl e = sched_match st d u excl e := rfl

/-- In the unlock branch the done-rows list handed to `random.choice` is
non-empty: the selection query found a non-excluded qualifying row for the
vendor, and with no undone such row it must be done. -/
theorem done_rows_ne_nil_of_unlock (st : RotState)
    (hdone : ∀ e ∈ st.store.entries, e.isDone = 0 ∨ e.isDone = 1)
    (hv : get_vendor_select st ≠ 0)
    (h1 : sched_rows st 0 (get_vendor_select st) st.usedImages = []) :
    sched_rows st 1 (get_vendor_select st) st.usedImages ≠ [] := by
  obtain ⟨e, he, ht, img, himg, hb, hen, hnu, hvv⟩ :=
    get_vendor_select_qualifies st hv
  rcases hdone e he with hd | hd
  · have hmem : e ∈ sched_rows st 0 (get_vendor_select st) st.usedImages :=
      List.mem_filter.mpr ⟨he,
        (sched_match_iff st 0 _ _ e).mpr ⟨ht, hd, img, himg, hb, hen, hvv, hnu⟩⟩
    rw [h1] at hmem
    exact absurd hmem (List.not_mem_nil e)
  · exact List.ne_nil_of_mem (List.mem_filter.mpr ⟨he,
      (sched_match_iff st 1 _ _ e).mpr ⟨ht, hd, img, himg, hb, hen, hvv, hnu⟩⟩)

/-- C10: with well-formed done flags, `get_vendor` never reaches
`random.choice` on an empty list; whenever it returns a vendor, the
candidate rows `get_test` then fetches are non-empty; and on any non-empty
fetched row set with valid flags the weighted pick succeeds. -/
theorem c10_picker_nonempty (seed : Nat) (st : RotState)
    (hdone : ∀ e ∈ st.store.entries, e.isDone = 0 ∨ e.isDone = 1) :
    (get_vendor seed st).isSome ∧
      (∀ v st', get_vendor seed st = some (v, st') → v ≠ 0 →
        get_test_candidates st' v ≠ []) ∧
      (∀ (memory cores : Int) (rows : List Candidate), rows ≠ [] →
        (∀ r ∈ rows, (r.bigmem = 0 ∨ r.bigmem = 1) ∧ (r.smp = 0 ∨ r.smp = 1)) →
        ∀ s, (get_test_pick memory cores rows s).isSome) := by
  refine ⟨?_, ?_, fun memory cores rows hne hv s =>
    get_test_pick_isSome memory cores rows hne hv s⟩
  · rw [get_vendor]
    by_cases h0 : get_vendor_select st = 0
    · rw [if_pos h0]; rfl
    · rw [if_neg h0]
      by_cases h1 : sched_rows st 0 (get_vendor_select st) st.usedImages ≠ []
      · rw [if_pos h1]; rfl
      · rw [if_neg h1]
        push_neg at h1
        by_cases h2 : sched_rows st 0 (get_vendor_select st) [] ≠ []
        · rw [if_pos h2]
          obtain ⟨e, hche⟩ := Option.isSome_iff_exists.mp
            (choice_isSome _ seed (done_rows_ne_nil_of_unlock st hdone h0 h1))
          rw [hche]
          rfl
        · rw [if_neg h2]; rfl
  · intro v st' h hv
    rw [get_vendor] at h
    by_cases h0 : get_vendor_select st = 0
    · rw [if_pos h0] at h
      simp only [Option.some.injEq, Prod.mk.injEq] at h
      exact absurd h.1.symm hv
    · rw [if_neg h0] at h
      by_cases h1 : sched_rows st 0 (get_vendor_select st) st.usedImages ≠ []
      · rw [if_pos h1] at h
        simp only [Option.some.injEq, Prod.mk.injEq] at h
        obtain ⟨hveq, hsteq⟩ := h
        subst hveq
        subst hsteq
        exact h1
      · rw [if_neg h1] at h
        push_neg at h1
        by_cases h2 : sched_rows st 0 (get_vendor_select st) [] ≠ []
        · rw [if_pos h2] at h
          cases hche : choice (sched_rows st 1 (get_vendor_select st) st.usedImages) seed with
          | none => rw [hche] at h; cases h
          | some e =>
            rw [hche] at h
            simp only [Option.some.injEq, Prod.mk.injEq] at h
            obtain ⟨hveq, hsteq⟩ := h
            subst hveq
            subst hsteq
            have hem := List.mem_filter.mp (choice_mem _ _ _ hche)
            obtain ⟨ht, hd, img, himg, hb, hen, hvv, hnu⟩ :=
              (sched_match_iff st 1 _ _ e).mp hem.2
            apply List.ne_nil_of_mem
              (show ({ e with isDone := 0 } : Entry) ∈ _ from ?_)
            refine List.mem_filter.mpr ⟨?_, ?_⟩
            · show _ ∈ (reset_entries st.store [e.scheduleId]).entries
              unfold reset_entries
              have := List.mem_map_of_mem (fun x : Entry =>
                if x.scheduleId ∈ [e.scheduleId] then { x with isDone := 0 }
                else x) hem.1
              simpa using this
            · rw [sched_match_reset]
              exact (sched_match_iff st 0 _ _ _).mpr
                ⟨ht, rfl, img, himg, hb, hen, hvv, hnu⟩
        · rw [if_neg h2] at h
          push_neg at h2
          simp only [Option.some.injEq, Prod.mk.injEq] at h
          obtain ⟨hveq, hsteq⟩ := h
          subst hveq
          subst hsteq
          obtain ⟨e, he, ht, img, himg, hb, hen, hnu, hvv⟩ :=
            get_vendor_select_qualifies st h0
          have hd : e.isDone = 1 := by
            rcases hdone e he with hd | hd
            · exfalso
              have hmem : e ∈ sched_rows st 0 (get_vendor_select st) [] :=
                List.mem_filter.mpr ⟨he, (sched_match_iff st 0 _ _ e).mpr
                  ⟨ht, hd, img, himg, hb, hen, hvv, by simp⟩⟩
              rw [h2] at hmem
              exact absurd hmem (List.not_mem_nil e)
            · exact hd
          have hdoneRow : e ∈ sched_rows st 1 (get_vendor_select st) [] :=
            List.mem_filter.mpr ⟨he, (sched_match_iff st 1 _ _ e).mpr
              ⟨ht, hd, img, himg, hb, hen, hvv, by simp⟩⟩
          apply List.ne_nil_of_mem
            (show ({ e with isDone := 0 } : Entry) ∈ _ from ?_)
          refine List.mem_filter.mpr ⟨?_, ?_⟩
          · show _ ∈ (reset_entries st.store
              ((sched_rows st 1 (get_vendor_select st) []).map (·.scheduleId))).entries
            unfold reset_entries
            have hin : e.scheduleId ∈
                (sched_rows st 1 (get_vendor_select st) []).map (·.scheduleId) :=
              List.mem_map_of_mem _ hdoneRow
            have := List.mem_map_of_mem (fun x : Entry =>
              if x.scheduleId ∈
                  (sched_rows st 1 (get_vendor_select st) []).map (·.scheduleId)
                then { x with isDone := 0 } else x) he
            simpa [hin] using this
          · rw [sched_match_reset]
            exact (sched_match_iff st 0 _ _ _).mpr
              ⟨ht, rfl, img, himg, hb, hen, hvv, hnu⟩

/-- C10 witness fixture: one vendor with one undone, enabled, compatible
schedule row. -/
def c10state : RotState :=
  { store :=
      { images :=
          [{ imageId := 1, imageName := "A", vendorId := 1, is64bit := 0,
             isEnabled := 1 }],
        entries :=
          [{ scheduleId := 1, targetId := 1, testId := 1, imageId := 1,
             isDone := 0 }] },
    targetId := 1, bitness := 0, lastVendor := 0, usedImages := [] }

/-- C10 witness: the safety statement applied at a concrete store with
well-formed done flags. -/
theorem c10_picker_nonempty_witness :
    (get_vendor 0 c10state).isSome ∧
      (∀ v st', get_vendor 0 c10state = some (v, st') → v ≠ 0 →
        get_test_candidates st' v ≠ []) ∧
      (∀ (memory cores : Int) (rows : List Candidate), rows ≠ [] →
        (∀ r ∈ rows, (r.bigmem = 0 ∨ r.bigmem = 1) ∧ (r.smp = 0 ∨ r.smp = 1)) →
        ∀ s, (get_test_pick memory cores rows s).isSome) :=
  c10_picker_nonempty 0 c10state (by decide)

end Temare
